import Mathlib

/-! Verification of the Merkle-tree donation accumulator.

Shallow embedding of `backend/donations/merkle_utils.py`: the SHA-256
hashing primitive (`hashlib.sha256(data.encode('utf-8')).hexdigest()`),
the `MerkleTree` engine (construction, root retrieval, proof generation,
static proof verification), and the donation adapter
(`create_charity_merkle_tree`, `verify_donation_inclusion`).

Python `while`/`for` loops become structural recursions; fallible
operations (`raise ValueError`) return `Except String`; machine-level
32-bit arithmetic inside SHA-256 is `Nat` with explicit masking by
`2 ^ 32 - 1`.
-/

/-! ## SHA-256 (the `hashlib.sha256(...).hexdigest()` primitive)

A byte is a `Nat < 256`; a word is a `Nat < 2 ^ 32`.  The implementation
follows FIPS 180-4: UTF-8 encode, pad, split into 512-bit blocks,
message schedule, 64-round compression, big-endian hex digest. -/

namespace SHA256

def mask32 : Nat := 0xffffffff

/-- Rotate the 32-bit word `x` right by `n` positions. -/
def rotr (n x : Nat) : Nat := ((x >>> n) ||| (x <<< (32 - n))) &&& mask32

def bigSigma0 (x : Nat) : Nat := rotr 2 x ^^^ rotr 13 x ^^^ rotr 22 x
def bigSigma1 (x : Nat) : Nat := rotr 6 x ^^^ rotr 11 x ^^^ rotr 25 x
def smallSigma0 (x : Nat) : Nat := rotr 7 x ^^^ rotr 18 x ^^^ (x >>> 3)
def smallSigma1 (x : Nat) : Nat := rotr 17 x ^^^ rotr 19 x ^^^ (x >>> 10)

def ch (x y z : Nat) : Nat := (x &&& y) ^^^ ((x ^^^ mask32) &&& z)
def maj (x y z : Nat) : Nat := (x &&& y) ^^^ (x &&& z) ^^^ (y &&& z)

/-- Unpack a 256-bit value into its eight 32-bit words, most
significant first. -/
def unpack8 (x : Nat) : List Nat :=
  (List.range 8).map fun i => (x >>> (32 * (7 - i))) &&& mask32

/-- The 64 round constants K, packed 8 to a 256-bit chunk in FIPS
order. -/
def K : List Nat :=
  ([0x428a2f9871374491b5c0fbcfe9b5dba53956c25b59f111f1923f82a4ab1c5ed5,
    0xd807aa9812835b01243185be550c7dc372be5d7480deb1fe9bdc06a7c19bf174,
    0xe49b69c1efbe47860fc19dc6240ca1cc2de92c6f4a7484aa5cb0a9dc76f988da,
    0x983e5152a831c66db00327c8bf597fc7c6e00bf3d5a7914706ca635114292967,
    0x27b70a852e1b21384d2c6dfc53380d13650a7354766a0abb81c2c92e92722c85,
    0xa2bfe8a1a81a664bc24b8b70c76c51a3d192e819d6990624f40e3585106aa070,
    0x19a4c1161e376c082748774c34b0bcb5391c0cb34ed8aa4a5b9cca4f682e6ff3,
    0x748f82ee78a5636f84c878148cc7020890befffaa4506cebbef9a3f7c67178f2] :
    List Nat).foldr (fun x acc => unpack8 x ++ acc) []

/-- The initial hash state, eight words packed into one 256-bit value. -/
def H0 : List Nat :=
  unpack8 0x6a09e667bb67ae853c6ef372a54ff53a510e527f9b05688c1f83d9ab5be0cd19

/-- UTF-8 encoding of one character (Python's `str.encode('utf-8')`). -/
def utf8Encode (c : Char) : List Nat :=
  let n := c.toNat
  if n < 0x80 then [n]
  else if n < 0x800 then
    [0xc0 ||| (n >>> 6), 0x80 ||| (n &&& 0x3f)]
  else if n < 0x10000 then
    [0xe0 ||| (n >>> 12), 0x80 ||| ((n >>> 6) &&& 0x3f), 0x80 ||| (n &&& 0x3f)]
  else
    [0xf0 ||| (n >>> 18), 0x80 ||| ((n >>> 12) &&& 0x3f),
     0x80 ||| ((n >>> 6) &&& 0x3f), 0x80 ||| (n &&& 0x3f)]

def strBytes (s : String) : List Nat :=
  s.data.foldr (fun c acc => utf8Encode c ++ acc) []

/-- Big-endian bytes of `x`, exactly `n` bytes. -/
def toBytesBE : Nat → Nat → List Nat
  | 0, _ => []
  | n + 1, x => toBytesBE n (x >>> 8) ++ [x &&& 0xff]

/-- FIPS 180-4 padding: append 0x80, zero bytes to 56 mod 64, then the
bit length as 8 big-endian bytes. -/
def pad (msg : List Nat) : List Nat :=
  let len := msg.length
  let zeros := (119 - len % 64) % 64
  msg ++ [0x80] ++ List.replicate zeros 0 ++ toBytesBE 8 (len * 8)

/-- Combine 4 bytes into one big-endian 32-bit word each. -/
def bytesToWords : List Nat → List Nat
  | b0 :: b1 :: b2 :: b3 :: rest =>
      ((b0 <<< 24) ||| (b1 <<< 16) ||| (b2 <<< 8) ||| b3) :: bytesToWords rest
  | _ => []

/-- Split into chunks of `n` elements (`fuel`-bounded structural recursion;
`fuel ≥ length` suffices). -/
def chunksFuel (n : Nat) : Nat → List Nat → List (List Nat)
  | 0, _ => []
  | _, [] => []
  | fuel + 1, l => l.take n :: chunksFuel n fuel (l.drop n)

/-- Message-schedule extension: `acc` holds the schedule so far in reverse
(newest word first); runs `t` more steps. -/
def extendSchedule : Nat → List Nat → List Nat
  | 0, acc => acc
  | t + 1, acc =>
      let w2 := acc.getD 1 0
      let w7 := acc.getD 6 0
      let w15 := acc.getD 14 0
      let w16 := acc.getD 15 0
      let w := (smallSigma1 w2 + w7 + smallSigma0 w15 + w16) &&& mask32
      extendSchedule t (w :: acc)

/-- The 64-word message schedule of one block (given as 16 words). -/
def schedule (block : List Nat) : List Nat :=
  (extendSchedule 48 block.reverse).reverse

/-- One compression round; state is (a, b, c, d, e, f, g, h). -/
def round (st : Nat × Nat × Nat × Nat × Nat × Nat × Nat × Nat) (kw : Nat × Nat) :
    Nat × Nat × Nat × Nat × Nat × Nat × Nat × Nat :=
  let (a, b, c, d, e, f, g, h) := st
  let (k, w) := kw
  let t1 := (h + bigSigma1 e + ch e f g + k + w) &&& mask32
  let t2 := (bigSigma0 a + maj a b c) &&& mask32
  ((t1 + t2) &&& mask32, a, b, c, (d + t1) &&& mask32, e, f, g)

/-- Compress one 16-word block into the running 8-word state. -/
def compress (state : List Nat) (block : List Nat) : List Nat :=
  let ws := schedule block
  match state with
  | [a0, b0, c0, d0, e0, f0, g0, h0] =>
      let (a, b, c, d, e, f, g, h) :=
        (K.zip ws).foldl round (a0, b0, c0, d0, e0, f0, g0, h0)
      [(a0 + a) &&& mask32, (b0 + b) &&& mask32, (c0 + c) &&& mask32,
       (d0 + d) &&& mask32, (e0 + e) &&& mask32, (f0 + f) &&& mask32,
       (g0 + g) &&& mask32, (h0 + h) &&& mask32]
  | other => other

/-- Digest of a byte string, as the 8 final 32-bit words. -/
def digestWords (msg : List Nat) : List Nat :=
  let padded := pad msg
  let blocks := (chunksFuel 64 padded.length padded).map bytesToWords
  blocks.foldl compress H0

def hexDigitChar (n : Nat) : Char :=
  if n < 10 then Char.ofNat (48 + n) else Char.ofNat (87 + n)

/-- Lowercase hex rendering of one 32-bit word (8 digits). -/
def wordToHex (w : Nat) : List Char :=
  [hexDigitChar ((w >>> 28) &&& 0xf), hexDigitChar ((w >>> 24) &&& 0xf),
   hexDigitChar ((w >>> 20) &&& 0xf), hexDigitChar ((w >>> 16) &&& 0xf),
   hexDigitChar ((w >>> 12) &&& 0xf), hexDigitChar ((w >>> 8) &&& 0xf),
   hexDigitChar ((w >>> 4) &&& 0xf), hexDigitChar (w &&& 0xf)]

end SHA256

/-- The `_hash` primitive of `MerkleTree`:
`hashlib.sha256(data.encode('utf-8')).hexdigest()`. -/
def sha256hex (data : String) : String :=
  String.mk ((SHA256.digestWords (SHA256.strBytes data)).foldr
    (fun w acc => SHA256.wordToHex w ++ acc) [])

set_option maxRecDepth 10000

/-- Sanity check against the FIPS 180-4 test vector for "abc". -/
theorem sha256hex_abc_vector :
    sha256hex "abc" =
      "ba7816bf8f01cfea414140de5dae2223b00361a396177a9cb410ff61f20015ad" := by
  decide

/-- Sanity check on a two-block (128-byte) input, matching `hashlib`. -/
theorem sha256hex_two_blocks_vector :
    sha256hex (sha256hex "A" ++ sha256hex "B") =
      "b30ab174f7459cdd40a3acdf15d0c9444fec2adcfb9d579aa154c084885edd0a" := by
  decide

/-! ## The Merkle tree engine (`merkle_utils.py`)

The engine is stated over an arbitrary hashing primitive
`H : String → String` standing for `self._hash` / the inline
`hashlib.sha256` call in `verify_proof`; every theorem about the
program as shipped instantiates `H := sha256hex`. -/

/-- The `MerkleProof` dataclass.  `index` is a Python `int`, so `Int`. -/
structure MerkleProof where
  proof : List String
  leaf : String
  root : String
  index : Int
  deriving Repr, DecidableEq

/-- A `MerkleNode`: a hash plus optional children and an optional data tag. -/
inductive MerkleNode where
  | mk (hash : String) (left right : Option MerkleNode) (data : Option String)
  deriving Repr

def MerkleNode.hash : MerkleNode → String
  | .mk h _ _ _ => h

/-- Placeholder node for list indexing that Python would reach only by
raising `IndexError`; unreachable on the executions the theorems cover. -/
def dummyNode : MerkleNode := .mk "" none none none

/-- One pass of the `while` loop body of `_build_tree`: pair up the
current level left to right; a dangling last node is combined with
itself and its parent keeps only the single real child
(`right if right != left else None`). -/
def buildPairs (H : String → String) : List MerkleNode → List MerkleNode
  | [] => []
  | [l] => [.mk (H (l.hash ++ l.hash)) (some l) none none]
  | l :: r :: rest =>
      .mk (H (l.hash ++ r.hash)) (some l) (some r) none :: buildPairs H rest

/-- The `while len(current_level) > 1` loop of `_build_tree`, collecting
every level (the current level is recorded before each iteration).
Structural recursion on `fuel`; `fuel ≥ current.length` suffices because
each pass at least halves a length `> 1`. -/
def buildLevels (H : String → String) : Nat → List MerkleNode → List (List MerkleNode)
  | 0, cur => [cur]
  | fuel + 1, cur =>
      if 1 < cur.length then cur :: buildLevels H fuel (buildPairs H cur)
      else [cur]

/-- The leaf level: `MerkleNode(leaf, data=f"leaf_{i}")` for each leaf. -/
def leafNodes (leaves : List String) : List MerkleNode :=
  leaves.enum.map fun p => .mk p.2 none none (some ("leaf_" ++ toString p.1))

/-- The `MerkleTree` instance state after `_build_tree`. -/
structure MerkleTree where
  leaves : List String
  tree : List (List MerkleNode)
  root : Option MerkleNode

/-- The constructor `MerkleTree.__init__`: rejects empty input, hashes each item to form
the leaves, builds all levels, and takes `current_level[0]` of the last
level as the root. -/
def MerkleTree.init (H : String → String) (data : List String) :
    Except String MerkleTree :=
  if data.isEmpty then .error "Cannot build tree with empty data"
  else
    let leaves := data.map H
    let tree := buildLevels H leaves.length (leafNodes leaves)
    .ok ⟨leaves, tree, tree.getLast?.bind List.head?⟩

/-- Root retrieval `get_root_hash`:
`if not self.root: raise ValueError("Tree not built")`. -/
def MerkleTree.get_root_hash (t : MerkleTree) : Except String String :=
  match t.root with
  | none => .error "Tree not built"
  | some n => .ok n.hash

/-- The `for level in range(len(self.tree) - 1)` loop of
`generate_proof`: at each level an odd position emits the left
neighbour's hash, an even position emits the right neighbour's hash when
it exists and nothing when the node dangles; the position is halved for
the next level either way. -/
def proofWalk : List (List MerkleNode) → Nat → List String → List String
  | [], _, acc => acc
  | lvl :: rest, idx, acc =>
      if idx % 2 == 1 then
        proofWalk rest (idx / 2) (acc ++ [(lvl.getD (idx - 1) dummyNode).hash])
      else
        match lvl.get? (idx + 1) with
        | some sib => proofWalk rest (idx / 2) (acc ++ [sib.hash])
        | none => proofWalk rest (idx / 2) acc

/-- Proof generation `generate_proof`: bounds check, sibling walk over all levels but the
last, and the assembled `MerkleProof`. -/
def MerkleTree.generate_proof (t : MerkleTree) (leaf_index : Int) :
    Except String MerkleProof :=
  if leaf_index < 0 || (t.leaves.length : Int) ≤ leaf_index then
    .error "Invalid leaf index"
  else do
    let idx := leaf_index.toNat
    let prf := proofWalk t.tree.dropLast idx []
    let rootHash ← t.get_root_hash
    pure ⟨prf, t.leaves.getD idx "", rootHash, leaf_index⟩

/-- The `for sibling_hash in merkle_proof.proof` loop of `verify_proof`:
fold the sibling hashes into the running hash, halving the index each
step.  `Int.emod`/`Int.fdiv` match Python's `%` and `//` on a positive
divisor. -/
def verifyFold (H : String → String) : List String → String → Int → String
  | [], computed, _ => computed
  | sib :: rest, computed, idx =>
      let combined := if Int.emod idx 2 == 1 then sib ++ computed
                      else computed ++ sib
      verifyFold H rest (H combined) (Int.fdiv idx 2)

/-- Static verification `MerkleTree.verify_proof`: recompute from leaf and siblings
and compare with the claimed root. -/
def MerkleTree.verify_proof (H : String → String) (merkle_proof : MerkleProof) :
    Bool :=
  verifyFold H merkle_proof.proof merkle_proof.leaf merkle_proof.index
    == merkle_proof.root

/-- The `get_tree_info` dictionary. -/
structure TreeInfo where
  total_leaves : Nat
  tree_depth : Nat
  root_hash : String
  leaves : List String
  deriving Repr, DecidableEq

/-- The query `get_tree_info`: calls `get_root_hash`, so it inherits its failure. -/
def MerkleTree.get_tree_info (t : MerkleTree) : Except String TreeInfo :=
  do
    let rootHash ← t.get_root_hash
    pure ⟨t.leaves.length, t.tree.length, rootHash, t.leaves.take 5⟩

/-! ## The donation adapter

A `Donation` row carries the fields the adapter reads.  `amount` is kept
as its rendered string (Python interpolates it into an f-string);
`created_at` is the integer timestamp `int(donation.created_at.timestamp())`. -/

structure Donation where
  id : Nat
  donor_address : String
  amount : String
  created_at : Int
  tx_hash : String
  charity_id : Nat
  confirmed : Bool
  deriving Repr, DecidableEq

/-- The canonical leaf string
`f"{id}:{donor_address}:{amount}:{int(created_at.timestamp())}:{tx_hash}"`. -/
def donationString (d : Donation) : String :=
  toString d.id ++ ":" ++ d.donor_address ++ ":" ++ d.amount ++ ":" ++
    toString d.created_at ++ ":" ++ d.tx_hash

/-- Stable insertion keeping ascending `created_at` (a new row goes
after existing rows with the same timestamp). -/
def insertByCreatedAt (d : Donation) : List Donation → List Donation
  | [] => [d]
  | x :: xs =>
      if d.created_at < x.created_at then d :: x :: xs
      else x :: insertByCreatedAt d xs

/-- The query
`Donation.objects.filter(charity_id=..., confirmed=True).order_by('created_at')`
over an in-memory store standing for the database table. -/
def confirmedDonations (store : List Donation) (charity_id : Nat) : List Donation :=
  (store.filter fun d => d.charity_id == charity_id && d.confirmed).foldl
    (fun acc d => insertByCreatedAt d acc) []

/-- The helper `create_charity_merkle_tree`: `None` when the charity has no
confirmed donations (or when construction fails — the `except` branch). -/
def create_charity_merkle_tree (H : String → String) (store : List Donation)
    (charity_id : Nat) : Option MerkleTree :=
  let donations := confirmedDonations store charity_id
  if donations.isEmpty then none
  else
    match MerkleTree.init H (donations.map donationString) with
    | .ok t => some t
    | .error _ => none

/-- The two dictionary shapes `verify_donation_inclusion` returns. -/
inductive InclusionResult where
  | err (verified : Bool) (error : String)
  | ok (verified proof_valid root_matches : Bool)
       (current_root provided_root : String) (tree_info : TreeInfo)
  deriving Repr, DecidableEq

/-- The endpoint helper `verify_donation_inclusion`: rebuild the charity tree, statically
verify the supplied proof, compare its root with the fresh root, and
report both checks plus their conjunction.  The Python `try`/`except`
turns any internal failure into `{'verified': False, 'error': ...}`,
here the `.err false` arms. -/
def verify_donation_inclusion (H : String → String) (store : List Donation)
    (charity_id : Nat) (provided_proof : MerkleProof) : InclusionResult :=
  match create_charity_merkle_tree H store charity_id with
  | none => .err false "No donations found for this charity"
  | some t =>
      match t.get_root_hash with
      | .error e => .err false e
      | .ok current_root =>
          let is_valid_proof := MerkleTree.verify_proof H provided_proof
          let root_matches := provided_proof.root == current_root
          match t.get_tree_info with
          | .error e => .err false e
          | .ok info =>
              .ok (is_valid_proof && root_matches) is_valid_proof root_matches
                current_root provided_proof.root info

/-- A tree extracted from a successful construction (`default`-padded so
it is total; every use is behind a construction that succeeds). -/
def theTree (data : List String) : MerkleTree :=
  (MerkleTree.init sha256hex data).toOption.getD ⟨[], [], none⟩

/-! ## Structural lemmas about construction -/

theorem buildLevels_ne_nil (H : String → String) (fuel : Nat)
    (cur : List MerkleNode) : buildLevels H fuel cur ≠ [] := by
  cases fuel with
  | zero => simp [buildLevels]
  | succ f => simp only [buildLevels]; split <;> simp

theorem buildPairs_ne_nil (H : String → String) :
    ∀ cur : List MerkleNode, cur ≠ [] → buildPairs H cur ≠ []
  | [], h => absurd rfl h
  | [_], _ => by simp [buildPairs]
  | _ :: _ :: _, _ => by simp [buildPairs]

theorem buildLevels_getLast (H : String → String) :
    ∀ (fuel : Nat) (cur : List MerkleNode), cur ≠ [] →
      ∃ lvl, (buildLevels H fuel cur).getLast? = some lvl ∧ lvl ≠ []
  | 0, cur, h => ⟨cur, by simp [buildLevels], h⟩
  | fuel + 1, cur, h => by
      by_cases hlen : 1 < cur.length
      · obtain ⟨lvl, hl, hne⟩ :=
          buildLevels_getLast H fuel (buildPairs H cur) (buildPairs_ne_nil H cur h)
        refine ⟨lvl, ?_, hne⟩
        rw [buildLevels, if_pos hlen]
        rcases hrec : buildLevels H fuel (buildPairs H cur) with _ | ⟨x, xs⟩
        · exact absurd hrec (buildLevels_ne_nil H fuel _)
        · rw [hrec] at hl
          rw [List.getLast?_cons_cons]
          exact hl
      · exact ⟨cur, by rw [buildLevels, if_neg hlen]; simp, h⟩

theorem leafNodes_length (leaves : List String) :
    (leafNodes leaves).length = leaves.length := by
  simp [leafNodes]

/-- What a successful `__init__` pins down about the resulting state. -/
theorem init_ok_elim (H : String → String) (data : List String) (t : MerkleTree)
    (h : MerkleTree.init H data = .ok t) :
    data ≠ [] ∧ t.leaves = data.map H ∧
    t.tree = buildLevels H (data.map H).length (leafNodes (data.map H)) ∧
    t.root = (buildLevels H (data.map H).length
      (leafNodes (data.map H))).getLast?.bind List.head? := by
  by_cases hd : data.isEmpty
  · rw [MerkleTree.init, if_pos hd] at h
    exact absurd h (by simp)
  · rw [MerkleTree.init, if_neg hd] at h
    have ht : t = ⟨data.map H,
        buildLevels H (data.map H).length (leafNodes (data.map H)),
        (buildLevels H (data.map H).length
          (leafNodes (data.map H))).getLast?.bind List.head?⟩ :=
      (Except.ok.inj h).symm
    subst ht
    exact ⟨by simpa using hd, rfl, rfl, rfl⟩

/-- After a successful construction the root field is populated. -/
theorem init_root_some (H : String → String) (data : List String)
    (t : MerkleTree) (h : MerkleTree.init H data = .ok t) :
    ∃ n, t.root = some n := by
  obtain ⟨hne, _, _, hr⟩ := init_ok_elim H data t h
  obtain ⟨lvl, hlast, hlne⟩ := buildLevels_getLast H (data.map H).length
    (leafNodes (data.map H)) (by
      intro hc
      apply hne
      have := congrArg List.length hc
      simpa [leafNodes_length] using this)
  rcases lvl with _ | ⟨x, xs⟩
  · exact absurd rfl hlne
  · exact ⟨x, by rw [hr, hlast]; rfl⟩

/-- After a successful construction `get_root_hash` succeeds. -/
theorem get_root_hash_ok (H : String → String) (data : List String)
    (t : MerkleTree) (h : MerkleTree.init H data = .ok t) :
    ∃ r, t.get_root_hash = .ok r := by
  obtain ⟨n, hn⟩ := init_root_some H data t h
  exact ⟨n.hash, by rw [MerkleTree.get_root_hash, hn]⟩

/-- In-bounds proof generation succeeds and is the sibling walk over all
levels but the last. -/
theorem generate_proof_ok (H : String → String) (data : List String)
    (t : MerkleTree) (h : MerkleTree.init H data = .ok t) (i : Nat)
    (hi : i < data.length) :
    ∃ p, t.generate_proof (i : Int) = .ok p ∧
      p.proof = proofWalk t.tree.dropLast i [] ∧ p.index = (i : Int) := by
  obtain ⟨hne, hl, _, _⟩ := init_ok_elim H data t h
  obtain ⟨r, hr⟩ := get_root_hash_ok H data t h
  have hlen : t.leaves.length = data.length := by rw [hl]; simp
  have hcond : ((i : Int) < 0 || (t.leaves.length : Int) ≤ (i : Int)) = false := by
    simp
    omega
  refine ⟨⟨proofWalk t.tree.dropLast i [], t.leaves.getD i "", r, (i : Int)⟩, ?_, rfl, rfl⟩
  rw [MerkleTree.generate_proof, if_neg (by simp; omega)]
  simp [hr, Except.bind]

/-! ## Proof length: the sibling walk emits at most one entry per level,
and exactly one when every level on the path has even node count. -/

theorem proofWalk_length_le :
    ∀ (levels : List (List MerkleNode)) (idx : Nat) (acc : List String),
      (proofWalk levels idx acc).length ≤ acc.length + levels.length
  | [], _, _ => by simp [proofWalk]
  | lvl :: rest, idx, acc => by
      rw [proofWalk]
      by_cases hodd : idx % 2 == 1
      · rw [if_pos hodd]
        have := proofWalk_length_le rest (idx / 2) (acc ++ [(lvl.getD (idx - 1) dummyNode).hash])
        simp at this ⊢
        omega
      · rw [if_neg hodd]
        rcases hsib : lvl.get? (idx + 1) with _ | sib
        · have := proofWalk_length_le rest (idx / 2) acc
          simp at this ⊢
          omega
        · have := proofWalk_length_le rest (idx / 2) (acc ++ [sib.hash])
          simp at this ⊢
          omega

/-- The walk's position stays in bounds and every level it crosses has an
even node count: the regime in which the Python loop emits a sibling at
every level. -/
def goodChain : List (List MerkleNode) → Nat → Prop
  | [], _ => True
  | lvl :: rest, idx => idx < lvl.length ∧ lvl.length % 2 = 0 ∧ goodChain rest (idx / 2)

theorem proofWalk_length_eq :
    ∀ (levels : List (List MerkleNode)) (idx : Nat) (acc : List String),
      goodChain levels idx →
      (proofWalk levels idx acc).length = acc.length + levels.length
  | [], _, _, _ => by simp [proofWalk]
  | lvl :: rest, idx, acc, hg => by
      obtain ⟨hidx, heven, hrest⟩ := hg
      rw [proofWalk]
      by_cases hodd : idx % 2 == 1
      · rw [if_pos hodd]
        have := proofWalk_length_eq rest (idx / 2)
          (acc ++ [(lvl.getD (idx - 1) dummyNode).hash]) hrest
        simp at this ⊢
        omega
      · have hlt : idx + 1 < lvl.length := by
          simp at hodd
          omega
        rcases hsib : lvl.get? (idx + 1) with _ | sib
        · rw [List.get?_eq_none] at hsib
          omega
        · rw [if_neg hodd]
          have := proofWalk_length_eq rest (idx / 2) (acc ++ [sib.hash]) hrest
          simp at this ⊢
          omega

theorem buildPairs_length (H : String → String) :
    ∀ cur : List MerkleNode, (buildPairs H cur).length = (cur.length + 1) / 2
  | [] => by simp [buildPairs]
  | [_] => by simp [buildPairs]
  | _ :: _ :: rest => by
      simp [buildPairs, buildPairs_length H rest]
      omega

/-- With at most one node there is a single level. -/
theorem buildLevels_singleton (H : String → String) (fuel : Nat)
    (cur : List MerkleNode) (h : cur.length ≤ 1) :
    buildLevels H fuel cur = [cur] := by
  cases fuel with
  | zero => rfl
  | succ f => rw [buildLevels, if_neg (by omega)]

/-! ## Tamper propagation through `verify_proof` -/

theorem string_append_left_cancel {s a b : String} (h : s ++ a = s ++ b) :
    a = b := by
  cases s with | mk sd =>
  cases a with | mk ad =>
  cases b with | mk bd =>
  have hd : sd ++ ad = sd ++ bd := congrArg String.data h
  exact congrArg String.mk (List.append_cancel_left hd)

theorem string_append_right_cancel {a b s : String} (h : a ++ s = b ++ s) :
    a = b := by
  cases s with | mk sd =>
  cases a with | mk ad =>
  cases b with | mk bd =>
  have hd : ad ++ sd = bd ++ sd := congrArg String.data h
  exact congrArg String.mk (List.append_cancel_right hd)

/-- One verification step sends distinct running hashes to distinct
running hashes when the hash is injective. -/
theorem verifyFold_ne (H : String → String) (hinj : Function.Injective H) :
    ∀ (l : List String) (c c' : String) (i : Int), c ≠ c' →
      verifyFold H l c i ≠ verifyFold H l c' i
  | [], c, c', _, hne => hne
  | sib :: rest, c, c', i, hne => by
      rw [verifyFold, verifyFold]
      by_cases hodd : Int.emod i 2 == 1
      · rw [if_pos hodd, if_pos hodd]
        exact verifyFold_ne H hinj rest _ _ _ fun he =>
          hne (string_append_left_cancel (hinj he))
      · rw [if_neg hodd, if_neg hodd]
        exact verifyFold_ne H hinj rest _ _ _ fun he =>
          hne (string_append_right_cancel (hinj he))

/-- Replacing one sibling entry by a different hash changes the final
recomputed hash, for an injective hashing primitive. -/
theorem verifyFold_tamper_sib (H : String → String) (hinj : Function.Injective H) :
    ∀ (pre : List String) (c : String) (i : Int) (s s' : String)
      (post : List String), s ≠ s' →
      verifyFold H (pre ++ s :: post) c i ≠ verifyFold H (pre ++ s' :: post) c i
  | [], c, i, s, s', post, hne => by
      simp only [List.nil_append]
      rw [verifyFold, verifyFold]
      by_cases hodd : Int.emod i 2 == 1
      · rw [if_pos hodd, if_pos hodd]
        exact verifyFold_ne H hinj post _ _ _ fun he =>
          hne (string_append_right_cancel (hinj he))
      · rw [if_neg hodd, if_neg hodd]
        exact verifyFold_ne H hinj post _ _ _ fun he =>
          hne (string_append_left_cancel (hinj he))
  | x :: pre, c, i, s, s', post, hne => by
      simp only [List.cons_append]
      rw [verifyFold, verifyFold]
      exact verifyFold_tamper_sib H hinj pre _ _ s s' post hne

/-- For a power-of-two level count the walk stays in bounds and all
levels below the root have even node counts. -/
theorem goodChain_pow2 (H : String → String) :
    ∀ (k fuel : Nat) (cur : List MerkleNode) (idx : Nat),
      cur.length = 2 ^ k → cur.length ≤ fuel + 1 → idx < cur.length →
      goodChain (buildLevels H fuel cur).dropLast idx
  | 0, fuel, cur, idx, hlen, _, hidx => by
      rw [buildLevels_singleton H fuel cur (by omega)]
      simp [goodChain]
  | k + 1, fuel, cur, idx, hlen, hfuel, hidx => by
      have hpow : 2 ^ (k + 1) = 2 ^ k * 2 := by rw [pow_succ]
      have hk1 : 1 ≤ 2 ^ k := Nat.one_le_two_pow
      have h2 : 1 < cur.length := by omega
      rcases fuel with _ | f
      · omega
      · rw [buildLevels, if_pos h2]
        have hplen : (buildPairs H cur).length = 2 ^ k := by
          rw [buildPairs_length H cur, hlen]
          omega
        have hrec := goodChain_pow2 H k f (buildPairs H cur) (idx / 2) hplen
          (by omega) (by omega)
        rcases hrecl : buildLevels H f (buildPairs H cur) with _ | ⟨x, xs⟩
        · exact absurd hrecl (buildLevels_ne_nil H f _)
        · rw [hrecl] at hrec
          exact ⟨hidx, by omega, hrec⟩



/-! ## The claims -/

/-- C1: the spec asserts `verify_proof(generate_proof(i))` succeeds for
every valid index, in particular for leaf index 2 of a 3-leaf tree.  The
code evaluated at that input returns `False`: at the dangling level the
generator emits no sibling yet still halves the position, while the
verifier halves the position only once per emitted sibling, so the
parity and the self-combination step disagree. -/
theorem claim_C1_code_eval :
    (MerkleTree.init sha256hex ["A", "B", "C"]).map
      (fun t => (t.generate_proof 2).map (MerkleTree.verify_proof sha256hex)) =
    .ok (.ok false) := rfl

/-- C2 counterexample: for the 3-leaf tree the proof for leaf 2 has one
sibling while the tree has 3 levels, so the claimed invariant
`proof length = depth - 1` fails (1 ≠ 2). -/
theorem claim_C2_counterexample :
    (MerkleTree.init sha256hex ["A", "B", "C"]).map
      (fun t => ((t.generate_proof 2).map (fun p => p.proof.length),
        t.tree.length)) = .ok (.ok 1, 3) ∧ (1 : Nat) ≠ 3 - 1 :=
  ⟨rfl, by decide⟩

/-- C2 amended: the sibling list of `generate_proof(i)` has length at
most the number of tree levels minus 1, with equality whenever the leaf
count is a power of two (then no level on the path has a dangling
node). -/
theorem claim_C2_amended (H : String → String) (data : List String)
    (t : MerkleTree) (i : Nat) (h : MerkleTree.init H data = .ok t)
    (hi : i < data.length) :
    ∃ p, t.generate_proof (i : Int) = .ok p ∧
      p.proof.length ≤ t.tree.length - 1 ∧
      (∀ k, data.length = 2 ^ k → p.proof.length = t.tree.length - 1) := by
  obtain ⟨p, hp, hprf, _⟩ := generate_proof_ok H data t h i hi
  obtain ⟨hne, hl, ht, _⟩ := init_ok_elim H data t h
  refine ⟨p, hp, ?_, ?_⟩
  · rw [hprf]
    have hle := proofWalk_length_le t.tree.dropLast i []
    have hlen := List.length_dropLast t.tree
    simp at hle
    omega
  · intro k hk
    rw [hprf]
    have hgc : goodChain t.tree.dropLast i := by
      rw [ht]
      exact goodChain_pow2 H k (data.map H).length (leafNodes (data.map H)) i
        (by simp [leafNodes_length, hk]) (by simp [leafNodes_length])
        (by simp [leafNodes_length]; omega)
    have heq := proofWalk_length_eq t.tree.dropLast i [] hgc
    have hlen := List.length_dropLast t.tree
    simp at heq
    omega

/-- C2 amended, witnessed at the 4-leaf tree and index 1: the proof has
exactly `3 - 1 = 2` siblings. -/
theorem claim_C2_amended_witness :
    ∃ p, (theTree ["A", "B", "C", "D"]).generate_proof ((1 : Nat) : Int) = .ok p ∧
      p.proof.length ≤ (theTree ["A", "B", "C", "D"]).tree.length - 1 ∧
      (∀ k, (["A", "B", "C", "D"] : List String).length = 2 ^ k →
        p.proof.length = (theTree ["A", "B", "C", "D"]).tree.length - 1) :=
  claim_C2_amended sha256hex ["A", "B", "C", "D"]
    (theTree ["A", "B", "C", "D"]) 1 rfl (by decide)

/-- C3: for a tree over records A, B, C with a = hash(A), b = hash(B),
c = hash(C), the levels are [a,b,c]; [hash(a+b), hash(c+c)];
[hash(hash(a+b)+hash(c+c))], and the root is that last hash. -/
theorem claim_C3 (A B C : String) :
    (MerkleTree.init sha256hex [A, B, C]).map
      (fun t => (t.tree.map (List.map MerkleNode.hash),
        t.root.map MerkleNode.hash)) =
    .ok ([[sha256hex A, sha256hex B, sha256hex C],
          [sha256hex (sha256hex A ++ sha256hex B),
           sha256hex (sha256hex C ++ sha256hex C)],
          [sha256hex (sha256hex (sha256hex A ++ sha256hex B) ++
             sha256hex (sha256hex C ++ sha256hex C))]],
         some (sha256hex (sha256hex (sha256hex A ++ sha256hex B) ++
           sha256hex (sha256hex C ++ sha256hex C)))) := rfl

/-- C4: `verify_donation_inclusion` always returns one of the two
structured dictionaries (the function is total — the `try`/`except`
swallows every exception): either an error result whose `verified` is
false, or a full result whose `verified` is exactly
`proof_valid AND root_matches`; and with zero confirmed donations it is
the structured no-donations error result. -/
theorem claim_C4 (store : List Donation) (charity_id : Nat) (p : MerkleProof) :
    ((∃ e, verify_donation_inclusion sha256hex store charity_id p =
        .err false e) ∨
     (∃ pv rm cr pr ti, verify_donation_inclusion sha256hex store charity_id p =
        .ok (pv && rm) pv rm cr pr ti)) ∧
    (confirmedDonations store charity_id = [] →
      verify_donation_inclusion sha256hex store charity_id p =
        .err false "No donations found for this charity") := by
  constructor
  · rcases hc : create_charity_merkle_tree sha256hex store charity_id with _ | t
    · refine .inl ⟨"No donations found for this charity", ?_⟩
      simp [verify_donation_inclusion, hc]
    · rcases hr : t.get_root_hash with e | cr
      · refine .inl ⟨e, ?_⟩
        simp [verify_donation_inclusion, hc, hr]
      · rcases hti : t.get_tree_info with e2 | ti
        · refine .inl ⟨e2, ?_⟩
          simp [verify_donation_inclusion, hc, hr, hti]
        · refine .inr ⟨MerkleTree.verify_proof sha256hex p, p.root == cr, cr,
            p.root, ti, ?_⟩
          simp [verify_donation_inclusion, hc, hr, hti]
  · intro hemp
    rw [verify_donation_inclusion, create_charity_merkle_tree, hemp]
    rfl

/-- C4, witnessed on an empty donation store. -/
theorem claim_C4_witness :
    verify_donation_inclusion sha256hex [] 0 ⟨[], "", "", 0⟩ =
      .err false "No donations found for this charity" :=
  (claim_C4 [] 0 ⟨[], "", "", 0⟩).2 rfl

/-- C5 counterexample: the proof the code generates for leaf 0 of the
2-leaf tree verifies, and it still verifies after the index is changed
from 0 to 2 — tampering with the index does not always make
verification fail. -/
theorem claim_C5_counterexample :
    (MerkleTree.init sha256hex ["A", "B"]).map (fun t => t.generate_proof 0) =
      .ok (.ok ⟨[sha256hex "B"], sha256hex "A",
        sha256hex (sha256hex "A" ++ sha256hex "B"), 0⟩) ∧
    MerkleTree.verify_proof sha256hex ⟨[sha256hex "B"], sha256hex "A",
      sha256hex (sha256hex "A" ++ sha256hex "B"), 0⟩ = true ∧
    MerkleTree.verify_proof sha256hex ⟨[sha256hex "B"], sha256hex "A",
      sha256hex (sha256hex "A" ++ sha256hex "B"), 2⟩ = true :=
  ⟨rfl, rfl, rfl⟩

/-- C5 amended: for a verifying proof, replacing the claimed root by any
other value makes verification fail — unconditionally, for every hashing
primitive and in particular for the shipped `sha256hex`; and for an
injective (collision-free) hashing primitive, so does replacing the leaf
hash or any single sibling hash by a different value.  (Changing the
index, dropped from the original claim, can leave verification
succeeding, as the counterexample shows.) -/
theorem claim_C5_amended (H : String → String)
    (p : MerkleProof) (hv : MerkleTree.verify_proof H p = true) :
    (∀ root2, root2 ≠ p.root →
      MerkleTree.verify_proof H ⟨p.proof, p.leaf, root2, p.index⟩ = false) ∧
    (Function.Injective H →
      (∀ leaf2, leaf2 ≠ p.leaf →
        MerkleTree.verify_proof H ⟨p.proof, leaf2, p.root, p.index⟩ = false) ∧
      (∀ pre s s2 post, p.proof = pre ++ s :: post → s2 ≠ s →
        MerkleTree.verify_proof H ⟨pre ++ s2 :: post, p.leaf, p.root, p.index⟩ =
          false)) := by
  have hfold : verifyFold H p.proof p.leaf p.index = p.root := by
    rw [MerkleTree.verify_proof] at hv
    exact eq_of_beq hv
  refine ⟨?_, fun hinj => ⟨?_, ?_⟩⟩
  · intro root2 hr
    simp only [MerkleTree.verify_proof, beq_eq_false_iff_ne, ne_eq]
    rw [hfold]
    exact fun he => hr he.symm
  · intro leaf2 hl
    simp only [MerkleTree.verify_proof, beq_eq_false_iff_ne, ne_eq]
    rw [← hfold]
    exact verifyFold_ne H hinj p.proof leaf2 p.leaf p.index hl
  · intro pre s s2 post hpre hs
    simp only [MerkleTree.verify_proof, beq_eq_false_iff_ne, ne_eq]
    rw [← hfold, hpre]
    exact verifyFold_tamper_sib H hinj pre p.leaf p.index s2 s post hs

/-- An injective stand-in hashing primitive, used to instantiate the
collision-freeness hypothesis on concrete inputs. -/
def hashTag (s : String) : String := String.mk ('#' :: s.data)

theorem hashTag_injective : Function.Injective hashTag := by
  intro a b h
  cases a with | mk ad =>
  cases b with | mk bd =>
  have hd : '#' :: ad = '#' :: bd := congrArg String.data h
  simp only [List.cons.injEq, true_and] at hd
  exact congrArg String.mk hd

/-- C5 amended, witnessed: root tampering on the proof the shipped code
generates for leaf 0 of the 2-leaf tree makes verification fail under
the real `sha256hex`, and a concrete verifying proof under the injective
stand-in fails after leaf or sibling tampering. -/
theorem claim_C5_amended_witness :
    MerkleTree.verify_proof sha256hex ⟨[sha256hex "B"], sha256hex "A",
      "0000000000000000000000000000000000000000000000000000000000000000",
      0⟩ = false ∧
    MerkleTree.verify_proof hashTag ⟨["x"], "z", hashTag "yx", 0⟩ = false ∧
    MerkleTree.verify_proof hashTag ⟨["w"], "y", hashTag "yx", 0⟩ = false :=
  ⟨(claim_C5_amended sha256hex ⟨[sha256hex "B"], sha256hex "A",
      sha256hex (sha256hex "A" ++ sha256hex "B"), 0⟩ (by decide)).1
      "0000000000000000000000000000000000000000000000000000000000000000"
      (by decide),
   ((claim_C5_amended hashTag ⟨["x"], "y", hashTag "yx", 0⟩
      (by decide)).2 hashTag_injective).1 "z" (by decide),
   ((claim_C5_amended hashTag ⟨["x"], "y", hashTag "yx", 0⟩
      (by decide)).2 hashTag_injective).2 [] "x" "w" [] rfl (by decide)⟩

/-- C6: a tree over one record has root hash equal to the hash of that
record, exactly one level, and an empty proof for leaf 0. -/
theorem claim_C6 (A : String) :
    (MerkleTree.init sha256hex [A]).map
      (fun t => (t.root.map MerkleNode.hash, t.tree.length,
        (t.generate_proof 0).map MerkleProof.proof)) =
    .ok (some (sha256hex A), 1, .ok []) := rfl

/-- C7: construction from the empty list fails with the empty-data
error; construction from any non-empty list succeeds. -/
theorem claim_C7 :
    MerkleTree.init sha256hex [] = .error "Cannot build tree with empty data" ∧
    ∀ data : List String, data ≠ [] →
      ∃ t, MerkleTree.init sha256hex data = .ok t := by
  refine ⟨rfl, fun data hne => ?_⟩
  rw [MerkleTree.init, if_neg (by simpa using hne)]
  exact ⟨_, rfl⟩

/-- C7, witnessed on a one-record list. -/
theorem claim_C7_witness : ∃ t, MerkleTree.init sha256hex ["A"] = .ok t :=
  claim_C7.2 ["A"] (by decide)

/-- C8: on a constructed tree, `generate_proof` fails with the
invalid-index error exactly when the index is outside
`[0, leaf_count)`, and succeeds on every index inside. -/
theorem claim_C8 (data : List String) (t : MerkleTree)
    (h : MerkleTree.init sha256hex data = .ok t) (i : Int) :
    (t.generate_proof i = .error "Invalid leaf index" ↔
      (i < 0 ∨ (data.length : Int) ≤ i)) ∧
    ((0 : Int) ≤ i → i < (data.length : Int) →
      ∃ p, t.generate_proof i = .ok p) := by
  have hlen : t.leaves.length = data.length := by
    obtain ⟨_, hl, _, _⟩ := init_ok_elim sha256hex data t h
    rw [hl]
    simp
  have hok : (0 : Int) ≤ i → i < (data.length : Int) →
      ∃ p, t.generate_proof i = .ok p := by
    intro hge hlt
    have hi : i.toNat < data.length := by omega
    obtain ⟨p, hp, _, _⟩ := generate_proof_ok sha256hex data t h i.toNat hi
    rw [Int.toNat_of_nonneg hge] at hp
    exact ⟨p, hp⟩
  refine ⟨⟨?_, ?_⟩, hok⟩
  · intro herr
    by_contra hout
    push_neg at hout
    obtain ⟨p, hp⟩ := hok hout.1 hout.2
    rw [hp] at herr
    exact absurd herr (by simp)
  · intro hout
    rw [MerkleTree.generate_proof, if_pos (by simp [hlen]; omega)]

/-- C8, witnessed at the one-leaf tree with the out-of-range index 5. -/
theorem claim_C8_witness :
    ((theTree ["A"]).generate_proof 5 = .error "Invalid leaf index" ↔
      ((5 : Int) < 0 ∨ (((["A"] : List String).length : Int) ≤ 5))) ∧
    ((0 : Int) ≤ 5 → (5 : Int) < ((["A"] : List String).length : Int) →
      ∃ p, (theTree ["A"]).generate_proof 5 = .ok p) :=
  claim_C8 ["A"] (theTree ["A"]) rfl 5

/-- C9: after a successful construction the defensive
`TreeNotBuiltError` branch of `get_root_hash` is dead — the call always
returns a hash. -/
theorem claim_C9 (data : List String) (t : MerkleTree)
    (h : MerkleTree.init sha256hex data = .ok t) :
    ∃ r, t.get_root_hash = .ok r :=
  get_root_hash_ok sha256hex data t h

/-- C9, witnessed on a one-record tree. -/
theorem claim_C9_witness : ∃ r, (theTree ["A"]).get_root_hash = .ok r :=
  claim_C9 ["A"] (theTree ["A"]) rfl

/-- C10: with an empty sibling list, verification succeeds exactly when
the leaf equals the claimed root — the index is never consulted, so the
root itself, presented with an empty proof, verifies at any index. -/
theorem claim_C10 :
    (∀ (leaf root : String) (index : Int),
      MerkleTree.verify_proof sha256hex ⟨[], leaf, root, index⟩ =
        (leaf == root)) ∧
    (∀ (root : String) (index : Int),
      MerkleTree.verify_proof sha256hex ⟨[], root, root, index⟩ = true) := by
  refine ⟨fun leaf root index => rfl, fun root index => ?_⟩
  simp [MerkleTree.verify_proof, verifyFold]
